import Mathlib

set_option maxRecDepth 8000
set_option linter.unusedVariables false

namespace BarcodeMidi

/-! Shallow embedding of the barcode-to-MIDI core from `barcode_with_midi.py`
(with `midi2.py` an older near-identical copy).  Texts are `List Char`,
Python ints are `ℤ`/`ℕ`, Python floats are modelled as exact rationals `ℚ`
(all constants involved — 0.125, 0.25, 0.375, 0.5, 3.0 — are dyadic, so
the float arithmetic performed by the program is exact). -/

/-! ### SHA-256 (model of `hashlib.sha256`, FIPS 180-4)

`params_from_text` feeds the UTF-8 encoding of the input text to SHA-256 and
reads single digest bytes.  Words are `ℕ` kept below 2^32 by explicit
truncation. -/

/-- Truncate to a 32-bit word. -/
def w32 (n : Nat) : Nat := n % 4294967296

/-- Right-rotate a 32-bit word by `k`. -/
def rotr (k x : Nat) : Nat := w32 ((x >>> k) ||| (x <<< (32 - k)))

/-- SHA-256 choice function. -/
def chF (x y z : Nat) : Nat := (x &&& y) ^^^ ((x ^^^ 4294967295) &&& z)

/-- SHA-256 majority function. -/
def majF (x y z : Nat) : Nat := (x &&& y) ^^^ (x &&& z) ^^^ (y &&& z)

def bigSigma0 (x : Nat) : Nat := (rotr 2 x) ^^^ (rotr 13 x) ^^^ (rotr 22 x)

def bigSigma1 (x : Nat) : Nat := (rotr 6 x) ^^^ (rotr 11 x) ^^^ (rotr 25 x)

def smallSigma0 (x : Nat) : Nat := (rotr 7 x) ^^^ (rotr 18 x) ^^^ (x >>> 3)

def smallSigma1 (x : Nat) : Nat := (rotr 17 x) ^^^ (rotr 19 x) ^^^ (x >>> 10)

/-- The 64 SHA-256 round constants of FIPS 180-4 (the fractional parts of the
cube roots of the first 64 primes), written in decimal. -/
def sha256K : List Nat :=
  [1116352408, 1899447441, 3049323471, 3921009573, 961987163, 1508970993,
   2453635748, 2870763221, 3624381080, 310598401, 607225278, 1426881987,
   1925078388, 2162078206, 2614888103, 3248222580, 3835390401, 4022224774,
   264347078, 604807628, 770255983, 1249150122, 1555081692, 1996064986,
   2554220882, 2821834349, 2952996808, 3210313671, 3336571891, 3584528711,
   113926993, 338241895, 666307205, 773529912, 1294757372, 1396182291,
   1695183700, 1986661051, 2177026350, 2456956037, 2730485921, 2820302411,
   3259730800, 3345764771, 3516065817, 3600352804, 4094571909, 275423344,
   430227734, 506948616, 659060556, 883997877, 958139571, 1322822218,
   1537002063, 1747873779, 1955562222, 2024104815, 2227730452, 2361852424,
   2428436474, 2756734187, 3204031479, 3329325298]

/-- SHA-256 working state: eight 32-bit words. -/
structure Hash8 where
  a : Nat
  b : Nat
  c : Nat
  d : Nat
  e : Nat
  f : Nat
  g : Nat
  h : Nat
deriving DecidableEq

/-- Initial SHA-256 hash value (fractional parts of the square roots of the
first eight primes), in decimal. -/
def sha256Init : Hash8 :=
  ⟨1779033703, 3144134277, 1013904242, 2773480762,
   1359893119, 2600822924, 528734635, 1541459225⟩

/-- The big-endian 8-byte encoding of a (< 2^64) number. -/
def beBytes8 (n : Nat) : List Nat :=
  [(n >>> 56) % 256, (n >>> 48) % 256, (n >>> 40) % 256, (n >>> 32) % 256,
   (n >>> 24) % 256, (n >>> 16) % 256, (n >>> 8) % 256, n % 256]

/-- The big-endian 4-byte encoding of a 32-bit word. -/
def beBytes4 (n : Nat) : List Nat :=
  [(n >>> 24) % 256, (n >>> 16) % 256, (n >>> 8) % 256, n % 256]

/-- SHA-256 padding: append `0x80`, zeros to 56 mod 64, then the 64-bit
big-endian bit length. -/
def sha256Pad (msg : List Nat) : List Nat :=
  let zeros := (64 + 55 - (msg.length % 64)) % 64
  msg ++ [128] ++ List.replicate zeros 0 ++ beBytes8 (8 * msg.length)

/-- Split a padded message into 64-byte blocks (fuel-indexed so that the
recursion is structural; the fuel `l.length` always suffices). -/
def toBlocksAux : Nat → List Nat → List (List Nat)
  | 0, _ => []
  | _, [] => []
  | fuel + 1, a :: rest => ((a :: rest).take 64) :: toBlocksAux fuel ((a :: rest).drop 64)

/-- Split a padded message into 64-byte blocks. -/
def toBlocks (l : List Nat) : List (List Nat) := toBlocksAux l.length l

/-- Big-endian interpretation of a byte list as a number. -/
def beWord (bs : List Nat) : Nat := bs.foldl (fun acc b => acc * 256 + b) 0

/-- The sixteen 32-bit message words of one 64-byte block. -/
def blockWords (block : List Nat) : List Nat :=
  (List.range 16).map (fun i => beWord ((block.drop (4 * i)).take 4))

/-- Extend the 16 message words to the 64-entry message schedule. -/
def extendSchedule (w : List Nat) : Nat → List Nat
  | 0 => w
  | k + 1 =>
      extendSchedule
        (w ++ [w32 (smallSigma1 (w.getD (w.length - 2) 0) + w.getD (w.length - 7) 0 +
                    smallSigma0 (w.getD (w.length - 15) 0) + w.getD (w.length - 16) 0)]) k

/-- One SHA-256 compression round; `kw` is the (constant, schedule word) pair. -/
def sha256Round (s : Hash8) (kw : Nat × Nat) : Hash8 :=
  let t1 := w32 (s.h + bigSigma1 s.e + chF s.e s.f s.g + kw.1 + kw.2)
  let t2 := w32 (bigSigma0 s.a + majF s.a s.b s.c)
  ⟨w32 (t1 + t2), s.a, s.b, s.c, w32 (s.d + t1), s.e, s.f, s.g⟩

/-- Process one 64-byte block. -/
def sha256Block (s : Hash8) (block : List Nat) : Hash8 :=
  let w := extendSchedule (blockWords block) 48
  let t := (sha256K.zip w).foldl sha256Round s
  ⟨w32 (s.a + t.a), w32 (s.b + t.b), w32 (s.c + t.c), w32 (s.d + t.d),
   w32 (s.e + t.e), w32 (s.f + t.f), w32 (s.g + t.g), w32 (s.h + t.h)⟩

/-- SHA-256 digest (32 bytes) of a byte list. -/
def sha256 (msg : List Nat) : List Nat :=
  let s := (toBlocks (sha256Pad msg)).foldl sha256Block sha256Init
  beBytes4 s.a ++ beBytes4 s.b ++ beBytes4 s.c ++ beBytes4 s.d ++
    beBytes4 s.e ++ beBytes4 s.f ++ beBytes4 s.g ++ beBytes4 s.h

/-- UTF-8 encoding of one Unicode scalar value (model of `str.encode("utf-8")`;
Lean `Char` excludes surrogates, so the `errors="ignore"` branch never fires). -/
def utf8Char (c : Char) : List Nat :=
  let n := c.toNat
  if n < 128 then [n]
  else if n < 2048 then [192 ||| (n >>> 6), 128 ||| (n &&& 63)]
  else if n < 65536 then
    [224 ||| (n >>> 12), 128 ||| ((n >>> 6) &&& 63), 128 ||| (n &&& 63)]
  else
    [240 ||| (n >>> 18), 128 ||| ((n >>> 12) &&& 63), 128 ||| ((n >>> 6) &&& 63), 128 ||| (n &&& 63)]

/-- UTF-8 encoding of a text. -/
def utf8Encode (s : List Char) : List Nat := s.flatMap utf8Char

example : sha256 [] =
    [227, 176, 196, 66, 152, 252, 28, 20, 154, 251, 244, 200, 153, 111, 185, 36,
     39, 174, 65, 228, 100, 155, 147, 76, 164, 149, 153, 27, 120, 82, 184, 85] := by decide

example : sha256 (utf8Encode "abc".data) =
    [186, 120, 22, 191, 143, 1, 207, 234, 65, 65, 64, 222, 93, 174, 34, 35,
     176, 3, 97, 163, 150, 23, 122, 156, 180, 16, 255, 97, 242, 0, 21, 173] := by decide

/-! ### Data model -/

/-- Python exceptions surfaced by the program: `ValueError(msg)` and the
`NameError` raised when the module-global `ch` is unbound. -/
inductive PyErr where
  | valueError (msg : String)
  | nameError (name : String)
deriving DecidableEq

/-- The `Note` dataclass of `barcode_with_midi.py`. -/
structure Note where
  pitch : ℤ
  duration_beats : ℚ
  velocity : ℤ
deriving DecidableEq

/-- A `mido` track message, restricted to the four kinds the program emits. -/
inductive MidiMsg where
  | setTempo (bpm : Nat)
  | programChange (program : Nat) (channel : Nat)
  | noteOn (note : ℤ) (velocity : ℤ) (channel : Nat)
  | noteOff (note : ℤ) (velocity : ℤ) (channel : Nat)
deriving DecidableEq

/-- A track message with its `time` field: the delta, in ticks, since the
previous message (as in `mido.Message(..., time=...)`). -/
structure TrackMsg where
  msg : MidiMsg
  time : ℤ
deriving DecidableEq

/-! ### Small Python helpers -/

/-- `clamp` from the source: `max(lo, min(hi, v))`. -/
def clamp (v lo hi : ℤ) : ℤ := max lo (min hi v)

/-- Python `int(q)` on an exact value: truncation toward zero. -/
def pyInt (q : ℚ) : ℤ := Int.tdiv q.num (q.den : ℤ)

/-- Python `str.lower()`; on the ASCII characters that matter for the scale
table this agrees with `Char.toLower`. -/
def pyLower (s : List Char) : List Char := s.map Char.toLower

/-- `text.replace("\r", "").replace("\n", "")`. -/
def normalizeText (s : List Char) : List Char :=
  s.filter (fun c => !(c == '\r') && !(c == '\n'))

/-! ### Scale table -/

/-- The module-level `SCALES` dict, as an association list. -/
def SCALES : List (List Char × List ℤ) :=
  [("major".data, [0, 2, 4, 5, 7, 9, 11]),
   ("minor".data, [0, 2, 3, 5, 7, 8, 10]),
   ("pentatonic".data, [0, 2, 4, 7, 9])]

/-- `SCALES.get(name)`. -/
def scalesGet (name : List Char) : Option (List ℤ) :=
  (SCALES.find? (fun p => p.1 = name)).map (fun p => p.2)

/-! ### Run-length segmenter (the loop inside `ascii_to_notes`) -/

/-- The run-length-encoding loop: `prev`/`cnt` are the loop state, the list
argument is the remaining input (`s[1:]` onward). -/
def rleLoop (prev : Char) (cnt : Nat) : List Char → List (Char × Nat)
  | [] => [(prev, cnt)]
  | c :: rest => if c = prev then rleLoop prev (cnt + 1) rest else (prev, cnt) :: rleLoop c 1 rest

/-- Run-length encoding of a text, as computed by `ascii_to_notes`; the
program only reaches this code with a non-empty `s`. -/
def runLength : List Char → List (Char × Nat)
  | [] => []
  | c :: rest => rleLoop c 1 rest

/-! ### Scale/pitch mapper -/

/-- The body of the per-run loop in `ascii_to_notes`: run `r` (character and
raw length) at position `i` becomes one `Note`. -/
def noteForRun (scale_ints : List ℤ) (base_note : ℤ) (unit_beats : ℚ)
    (min_run max_run : ℤ) (i : Nat) (r : Char × Nat) : Note :=
  let run : ℤ := clamp (r.2 : ℤ) min_run max_run
  let is_bar : Bool := decide (r.1 ∈ (['|', '1', '█', '#', 'X', 'x'] : List Char))
  let degree : ℤ := scale_ints.getD (((r.1.toNat : ℤ) + (i : ℤ) + run) % (scale_ints.length : ℤ)).toNat 0
  let pitch := clamp (base_note + degree + (if is_bar then 12 else 0)) 0 127
  let velocity : ℤ := if is_bar then 95 else 55
  let duration : ℚ := (run : ℚ) * unit_beats
  { pitch := pitch, duration_beats := duration, velocity := velocity }

/-- `ascii_to_notes` from the source.  Note the order of checks: an empty
normalized text returns `[]` before the scale name is ever looked up. -/
def ascii_to_notes (barcode_ascii : List Char) (base_note : ℤ) (scale : List Char)
    (unit_beats : ℚ) (min_run max_run : ℤ) : Except PyErr (List Note) :=
  let s := normalizeText barcode_ascii
  if s = [] then .ok []
  else
    let runs := runLength s
    match scalesGet (pyLower scale) with
    | none => .error (.valueError "Unknown scale")
    | some scale_ints =>
      if scale_ints = [] then .error (.valueError "Unknown scale")
      else .ok (runs.enum.map (fun ir => noteForRun scale_ints base_note unit_beats min_run max_run ir.1 ir.2))

/-! ### Parameter derivation -/

/-- `params_from_text` from the source: six parameters, each read off one
byte of the SHA-256 digest of the UTF-8 encoded text.  Result tuple:
(scale, bpm, base_note, unit_beats, program, chord_duration). -/
def params_from_text (text : List Char) : List Char × Nat × ℤ × ℚ × Nat × ℚ :=
  let h := sha256 (utf8Encode text)
  let scales : List (List Char) := ["major".data, "minor".data, "pentatonic".data]
  let programs : List Nat := [81, 100, 104, 84, 85, 86]
  let scale := scales.getD (h.getD 0 0 % scales.length) []
  let bpm := 70 + (h.getD 1 0 % 121)
  let base_note : ℤ := 36 + ((h.getD 2 0 % 25 : Nat) : ℤ)
  let unit_beats := ([0.125, 0.25, 0.375, 0.5] : List ℚ).getD (h.getD 3 0 % 4) 0
  let program := programs.getD (h.getD 4 0 % programs.length) 0
  let chord_duration : ℚ := 1 + ((h.getD 5 0 % 8 : Nat) : ℚ) * 0.5
  (scale, bpm, base_note, unit_beats, program, chord_duration)

/-! ### Emitters -/

/-- The per-note message pairs of the sequential emitter: for each note a
`note_on` at delta 0 and a `note_off` at delta
`int(duration_beats * ticks_per_beat)`. -/
def seqNoteMsgs (channel ticks_per_beat : Nat) (notes : List Note) : List TrackMsg :=
  notes.flatMap (fun n =>
    [⟨.noteOn n.pitch n.velocity channel, 0⟩,
     ⟨.noteOff n.pitch 0 channel, pyInt (n.duration_beats * (ticks_per_beat : ℚ))⟩])

/-- Sequential emission (`notes_to_midi_file`): tempo and program first, then
the back-to-back note messages. -/
def notes_to_midi_file (notes : List Note) (bpm program channel ticks_per_beat : Nat) :
    List TrackMsg :=
  ⟨.setTempo bpm, 0⟩ :: ⟨.programChange program channel, 0⟩ ::
    seqNoteMsgs channel ticks_per_beat notes

/-- Insert into a strictly sorted list, dropping duplicates. -/
def insertNoDup (x : ℤ) : List ℤ → List ℤ
  | [] => [x]
  | y :: rest => if x = y then y :: rest else if x < y then x :: y :: rest else y :: insertNoDup x rest

/-- Python `sorted(set(l))` for integers: the strictly ascending list of the
distinct elements of `l`. -/
def sortedDedup (l : List ℤ) : List ℤ := l.foldr insertNoDup []

/-- The chord velocity: `int(sum(n.velocity for n in notes) / len(notes))`
(exact division truncated toward zero, as `int()` does) clamped by
`max(1, min(127, vel))`. -/
def chordVel (notes : List Note) : ℤ :=
  max 1 (min 127 (pyInt (((notes.map Note.velocity).sum : ℚ) / (notes.length : ℚ))))

/-- Chord emission (`notes_to_midi_chord_file`): deduplicated sorted pitches,
average velocity truncated by `int(...)` then clamped to [1,127], all
`note_on`s at delta 0, the first `note_off` at delta
`int(chord_duration_beats * ticks_per_beat)` and the rest at delta 0. -/
def notes_to_midi_chord_file (notes : List Note) (bpm program channel ticks_per_beat : Nat)
    (chord_duration_beats : ℚ) : Except PyErr (List TrackMsg) :=
  let pitches := sortedDedup (notes.map Note.pitch)
  if pitches = [] then .error (.valueError "No notes to write")
  else
    let vel := chordVel notes
    let ons := pitches.map (fun p => (⟨.noteOn p vel channel, 0⟩ : TrackMsg))
    let off_time := pyInt (chord_duration_beats * (ticks_per_beat : ℚ))
    let offs : List TrackMsg :=
      match pitches with
      | [] => []
      | p :: rest => ⟨.noteOff p 0 channel, off_time⟩ :: rest.map (fun q => ⟨.noteOff q 0 channel, 0⟩)
    .ok (⟨.setTempo bpm, 0⟩ :: ⟨.programChange program channel, 0⟩ :: (ons ++ offs))

/-- `barcode_ascii_to_midi` from `barcode_with_midi.py`.  Its first statement
reads the module-global `ch` (modelled as the `Option` argument: `none`
means unbound, giving a `NameError`), derives all musical parameters from
it, and shadows every caller-supplied parameter; the derived
`chord_duration` is then ignored in favor of the literal `3.0`. -/
def barcode_ascii_to_midi (ch : Option (List Char)) (barcode_ascii : List Char)
    (bpm : Nat) (scale : List Char) (base_note : ℤ) (unit_beats : ℚ) (program : Nat) :
    Except PyErr (List TrackMsg) :=
  match ch with
  | none => .error (.nameError "ch")
  | some chText =>
    match params_from_text chText with
    | (scaleD, bpmD, base_noteD, unit_beatsD, programD, _chord_duration) =>
      match ascii_to_notes barcode_ascii base_noteD scaleD unit_beatsD 1 12 with
      | .error e => .error e
      | .ok notes =>
        if notes = [] then .error (.valueError "Input barcode_ascii is empty after stripping newlines.")
        else notes_to_midi_chord_file notes bpmD programD 0 480 3.0

/-! ### Observers on emitted tracks -/

/-- Pair each message with its absolute time (accumulated deltas from `t`). -/
def withAbsTimes : List TrackMsg → ℤ → List (MidiMsg × ℤ)
  | [], _ => []
  | m :: rest, t => (m.msg, t + m.time) :: withAbsTimes rest (t + m.time)

/-- The (pitch, velocity) pairs of the `note_on` messages, in track order. -/
def onEvents (track : List TrackMsg) : List (ℤ × ℤ) :=
  track.filterMap (fun m => match m.msg with | .noteOn p v _ => some (p, v) | _ => none)

/-- Select the absolute time of a `note_on`. -/
def onSel (e : MidiMsg × ℤ) : Option ℤ :=
  match e.1 with | .noteOn _ _ _ => some e.2 | _ => none

/-- Select the absolute time of a `note_off`. -/
def offSel (e : MidiMsg × ℤ) : Option ℤ :=
  match e.1 with | .noteOff _ _ _ => some e.2 | _ => none

/-- Absolute times of the `note_on` messages, in track order. -/
def onTimes (track : List TrackMsg) : List ℤ :=
  (withAbsTimes track 0).filterMap onSel

/-- Absolute times of the `note_off` messages, in track order. -/
def offTimes (track : List TrackMsg) : List ℤ :=
  (withAbsTimes track 0).filterMap offSel

/-- Duration of a note in ticks, as the sequential emitter computes it. -/
def dticks (tpb : Nat) (n : Note) : ℤ := pyInt (n.duration_beats * (tpb : ℚ))

example : ascii_to_notes "||||    XX".data 48 "minor".data (1/4) 1 12 =
    .ok [⟨63, 1, 95⟩, ⟨51, 1, 55⟩, ⟨62, 1/2, 95⟩] := by with_unfolding_all rfl

example : runLength (normalizeText "||||    XX".data) = [('|', 4), (' ', 4), ('X', 2)] := by decide

example : params_from_text "B".data = ("minor".data, 75, 48, 1/4, 104, 7/2) := by
  with_unfolding_all rfl

example : barcode_ascii_to_midi (some "B".data) "B".data 130 "pentatonic".data 50 (1/4) 81 =
    .ok [⟨.setTempo 75, 0⟩, ⟨.programChange 104 0, 0⟩, ⟨.noteOn 55 55 0, 0⟩, ⟨.noteOff 55 0 0, 1440⟩] := by
  with_unfolding_all rfl

example : pyInt ((7/2 : ℚ) * (480 : ℚ)) = 1680 := by with_unfolding_all rfl

/-! ### Lemmas about the run-length segmenter -/

lemma rleLoop_flatMap (rest : List Char) : ∀ (prev : Char) (cnt : Nat),
    (rleLoop prev cnt rest).flatMap (fun r => List.replicate r.2 r.1) =
      List.replicate cnt prev ++ rest := by
  induction rest with
  | nil => intro prev cnt; simp [rleLoop]
  | cons c rest ih =>
    intro prev cnt
    by_cases h : c = prev
    · subst h
      rw [rleLoop, if_pos rfl, ih]
      rw [List.replicate_succ' ]
      simp
    · rw [rleLoop, if_neg h]
      simp only [List.flatMap_cons, ih]
      simp

lemma rleLoop_pos (rest : List Char) : ∀ (prev : Char) (cnt : Nat), 1 ≤ cnt →
    ∀ r ∈ rleLoop prev cnt rest, 1 ≤ r.2 := by
  induction rest with
  | nil =>
    intro prev cnt hc r hr
    simp [rleLoop] at hr
    subst hr; exact hc
  | cons c rest ih =>
    intro prev cnt hc r hr
    by_cases h : c = prev
    · subst h
      rw [rleLoop, if_pos rfl] at hr
      exact ih _ _ (by omega) r hr
    · rw [rleLoop, if_neg h] at hr
      rcases List.mem_cons.mp hr with h1 | h1
      · subst h1; exact hc
      · exact ih _ _ le_rfl r h1

lemma runLength_flatMap (s : List Char) :
    (runLength s).flatMap (fun r => List.replicate r.2 r.1) = s := by
  cases s with
  | nil => simp [runLength]
  | cons c rest =>
    rw [runLength, rleLoop_flatMap]
    simp

lemma runLength_pos (s : List Char) : ∀ r ∈ runLength s, 1 ≤ r.2 := by
  cases s with
  | nil => simp [runLength]
  | cons c rest => exact rleLoop_pos rest c 1 le_rfl

/-- C4: for every input text with non-empty normalized form, the run-length
segmenter's runs, each character repeated its length, concatenate back to
the normalized text, and every run length is positive. -/
theorem segmenter_roundtrip (text : List Char) (h : normalizeText text ≠ []) :
    (runLength (normalizeText text)).flatMap (fun r => List.replicate r.2 r.1) =
      normalizeText text
    ∧ ∀ r ∈ runLength (normalizeText text), 0 < r.2 :=
  ⟨runLength_flatMap _, runLength_pos _⟩

/-- Witness for `segmenter_roundtrip` at the repository's example text. -/
theorem segmenter_roundtrip_witness :
    normalizeText "||||    XX".data ≠ []
    ∧ ((runLength (normalizeText "||||    XX".data)).flatMap
        (fun r => List.replicate r.2 r.1) = normalizeText "||||    XX".data
      ∧ ∀ r ∈ runLength (normalizeText "||||    XX".data), 0 < r.2) :=
  ⟨by decide, segmenter_roundtrip "||||    XX".data (by decide)⟩

/-! ### Lemmas about the mapper -/

lemma clamp_bounds (v lo hi : ℤ) (h : lo ≤ hi) : lo ≤ clamp v lo hi ∧ clamp v lo hi ≤ hi := by
  simp only [clamp]
  omega

lemma clamp_run_pos (r min_run max_run : ℤ) (hr : 1 ≤ r) (hw : 1 ≤ min_run ∨ 1 ≤ max_run) :
    1 ≤ clamp r min_run max_run := by
  simp only [clamp]
  omega

lemma mem_of_mem_enum {α : Type} {l : List α} {ir : Nat × α} (h : ir ∈ l.enum) : ir.2 ∈ l := by
  have := List.enum_map_snd l
  rw [← this]
  exact List.mem_map_of_mem Prod.snd h

/-- C5 (amended): with a positive unit-beats and a run-clamp window whose
lower or upper bound is at least 1, every Note the mapper produces has
pitch in [0,127], velocity in [1,127] and positive duration. -/
theorem mapper_note_ranges (text : List Char) (base_note : ℤ) (scale : List Char)
    (unit_beats : ℚ) (min_run max_run : ℤ) (notes : List Note)
    (hu : 0 < unit_beats) (hw : 1 ≤ min_run ∨ 1 ≤ max_run)
    (hok : ascii_to_notes text base_note scale unit_beats min_run max_run = .ok notes) :
    ∀ n ∈ notes, 0 ≤ n.pitch ∧ n.pitch ≤ 127 ∧ 1 ≤ n.velocity ∧ n.velocity ≤ 127
      ∧ 0 < n.duration_beats := by
  intro n hn
  rw [ascii_to_notes] at hok
  by_cases hempty : normalizeText text = []
  · rw [if_pos hempty] at hok
    cases hok
    simp at hn
  · rw [if_neg hempty] at hok
    rcases hfind : scalesGet (pyLower scale) with _ | scale_ints
    · rw [hfind] at hok; cases hok
    · rw [hfind] at hok
      dsimp only at hok
      by_cases hsi : scale_ints = []
      · rw [if_pos hsi] at hok; cases hok
      · rw [if_neg hsi] at hok
        cases hok
        rcases List.mem_map.mp hn with ⟨ir, hir, rfl⟩
        have hrun : 1 ≤ (ir.2.2 : ℤ) := by
          have := runLength_pos (normalizeText text) ir.2 (mem_of_mem_enum hir)
          exact_mod_cast this
        refine ⟨?_, ?_, ?_, ?_, ?_⟩
        · exact (clamp_bounds _ 0 127 (by norm_num)).1
        · exact (clamp_bounds _ 0 127 (by norm_num)).2
        · simp only [noteForRun]
          split <;> norm_num
        · simp only [noteForRun]
          split <;> norm_num
        · simp only [noteForRun]
          have h1 : (1 : ℤ) ≤ clamp (ir.2.2 : ℤ) min_run max_run := clamp_run_pos _ _ _ hrun hw
          have h2 : (0 : ℚ) < ((clamp (ir.2.2 : ℤ) min_run max_run : ℤ) : ℚ) := by
            exact_mod_cast lt_of_lt_of_le Int.zero_lt_one h1
          exact mul_pos h2 hu

/-- Witness for `mapper_note_ranges` on input "a" with the default
configuration. -/
theorem mapper_note_ranges_witness :
    0 < (1/4 : ℚ) ∧ ((1:ℤ) ≤ 1 ∨ (1:ℤ) ≤ 12)
    ∧ ∀ n ∈ [({ pitch := 48, duration_beats := 1/4, velocity := 55 } : Note)],
        0 ≤ n.pitch ∧ n.pitch ≤ 127 ∧ 1 ≤ n.velocity ∧ n.velocity ≤ 127
          ∧ 0 < n.duration_beats :=
  ⟨by norm_num, Or.inl le_rfl,
    mapper_note_ranges ['a'] 48 "minor".data (1/4) 1 12 _ (by norm_num) (Or.inl le_rfl)
      (by with_unfolding_all rfl)⟩

/-- C5 counterexample: with unit-beats 0 (first conjunct) or a clamp window
of [0,0] (second conjunct) the mapper emits a Note of duration 0, so the
claim does not hold for every configuration of unit-beats and clamp
window. -/
theorem mapper_note_ranges_cex :
    ¬ (∀ notes, ascii_to_notes ['a'] 48 "minor".data 0 1 12 = .ok notes →
        ∀ n ∈ notes, 0 < n.duration_beats)
    ∧ ¬ (∀ notes, ascii_to_notes ['a'] 48 "minor".data (1/4) 0 0 = .ok notes →
        ∀ n ∈ notes, 0 < n.duration_beats) := by
  constructor
  · intro hcl
    have h := hcl [{ pitch := 48, duration_beats := 0, velocity := 55 }]
      (by with_unfolding_all rfl) _ (List.mem_singleton.mpr rfl)
    exact absurd h (by norm_num)
  · intro hcl
    have h := hcl [{ pitch := 58, duration_beats := 0, velocity := 55 }]
      (by with_unfolding_all rfl) _ (List.mem_singleton.mpr rfl)
    exact absurd h (by norm_num)

/-- C8 (amended): when the normalized text is non-empty and the lowercased
scale name is not a key of the table, the mapper fails with the
unknown-scale `ValueError` (so no Notes are produced). -/
theorem invalid_scale_error (text : List Char) (base_note : ℤ) (scale : List Char)
    (unit_beats : ℚ) (min_run max_run : ℤ)
    (hne : normalizeText text ≠ [])
    (habs : scalesGet (pyLower scale) = none) :
    ascii_to_notes text base_note scale unit_beats min_run max_run =
      .error (.valueError "Unknown scale") := by
  rw [ascii_to_notes, if_neg hne, habs]

/-- Witness for `invalid_scale_error`: text "ab" with the unknown scale
"dorian". -/
theorem invalid_scale_error_witness :
    normalizeText "ab".data ≠ [] ∧ scalesGet (pyLower "dorian".data) = none
    ∧ ascii_to_notes "ab".data 48 "dorian".data (1/4) 1 12 =
        .error (.valueError "Unknown scale") :=
  ⟨by decide, by decide,
    invalid_scale_error "ab".data 48 "dorian".data (1/4) 1 12 (by decide) (by decide)⟩

/-- C8 counterexample: with an empty input text the mapper returns `ok []`
(the empty-text check precedes the scale lookup), and the scale name
"MINOR", absent from the table as written, is found after lowercasing, so
neither call raises the unknown-scale error claimed for every input text
and every absent scale name. -/
theorem invalid_scale_error_cex :
    ascii_to_notes [] 48 "dorian".data (1/4) 1 12 = .ok []
    ∧ SCALES.find? (fun p => p.1 = "MINOR".data) = none
    ∧ ascii_to_notes "ab".data 48 "MINOR".data (1/4) 1 12 =
        .ok [{ pitch := 48, duration_beats := 1/4, velocity := 55 },
             { pitch := 51, duration_beats := 1/4, velocity := 55 }] :=
  ⟨by with_unfolding_all rfl, by decide, by with_unfolding_all rfl⟩

/-- C3: whenever the (lowercased) scale name resolves to a non-empty scale,
the mapper emits exactly one Note per run, in run order, given by the
per-run rule `noteForRun` (degree index `(ord ch + i + clamped run) mod
|scale|`, pitch `base + offset + 12·marked` clamped to [0,127], velocity
95/55, duration `clamped run × unit_beats`); and on the concrete scenario
"||||    XX" (minor, base 48, unit 1/4) the runs are
`[('|',4), (' ',4), ('X',2)]` and the notes are pitch 63 / velocity 95 /
1 beat, pitch 51 / velocity 55 / 1 beat, pitch 62 / velocity 95 / half a
beat. -/
theorem mapper_per_run (text : List Char) (base_note : ℤ) (scale : List Char)
    (unit_beats : ℚ) (min_run max_run : ℤ) (scale_ints : List ℤ)
    (hs : scalesGet (pyLower scale) = some scale_ints) (hne : scale_ints ≠ [])
    (hText : normalizeText text ≠ []) :
    ascii_to_notes text base_note scale unit_beats min_run max_run =
      .ok ((runLength (normalizeText text)).enum.map
        (fun ir => noteForRun scale_ints base_note unit_beats min_run max_run ir.1 ir.2))
    ∧ runLength (normalizeText "||||    XX".data) = [('|', 4), (' ', 4), ('X', 2)]
    ∧ ascii_to_notes "||||    XX".data 48 "minor".data (1/4) 1 12 =
        .ok [{ pitch := 63, duration_beats := 1, velocity := 95 },
             { pitch := 51, duration_beats := 1, velocity := 55 },
             { pitch := 62, duration_beats := 1/2, velocity := 95 }] := by
  refine ⟨?_, by decide, by with_unfolding_all rfl⟩
  rw [ascii_to_notes, if_neg hText, hs]
  dsimp only
  rw [if_neg hne]

/-- Witness for `mapper_per_run` at the concrete scenario inputs. -/
theorem mapper_per_run_witness :
    scalesGet (pyLower "minor".data) = some [0, 2, 3, 5, 7, 8, 10]
    ∧ ([0, 2, 3, 5, 7, 8, 10] : List ℤ) ≠ []
    ∧ normalizeText "||||    XX".data ≠ []
    ∧ ascii_to_notes "||||    XX".data 48 "minor".data (1/4) 1 12 =
        .ok ((runLength (normalizeText "||||    XX".data)).enum.map
          (fun ir => noteForRun [0, 2, 3, 5, 7, 8, 10] 48 (1/4) 1 12 ir.1 ir.2)) :=
  ⟨by decide, by decide, by decide,
    (mapper_per_run "||||    XX".data 48 "minor".data (1/4) 1 12 [0, 2, 3, 5, 7, 8, 10]
      (by decide) (by decide) (by decide)).1⟩

/-! ### Parameter derivation (C9) -/

/-- C9: the derived tuple is computed from single digest bytes by the stated
reductions, and the stated ranges hold: scale is the (byte 0 mod 3)-rd of
the three scale names, bpm ∈ [70,190], base pitch ∈ [36,60], unit-beats ∈
{1/8, 1/4, 3/8, 1/2}, the instrument is the (byte 4 mod 6)-th of the fixed
six-element program list, and chord duration = 1 + (byte 5 mod 8)/2 ∈
[1,5]. -/
theorem params_derivation (text : List Char) :
    params_from_text text =
      (["major".data, "minor".data, "pentatonic".data].getD
          ((sha256 (utf8Encode text)).getD 0 0 % 3) [],
       70 + ((sha256 (utf8Encode text)).getD 1 0 % 121),
       36 + (((sha256 (utf8Encode text)).getD 2 0 % 25 : ℕ) : ℤ),
       ([1/8, 1/4, 3/8, 1/2] : List ℚ).getD ((sha256 (utf8Encode text)).getD 3 0 % 4) 0,
       [81, 100, 104, 84, 85, 86].getD ((sha256 (utf8Encode text)).getD 4 0 % 6) 0,
       1 + (((sha256 (utf8Encode text)).getD 5 0 % 8 : ℕ) : ℚ) * (1/2))
    ∧ (params_from_text text).1 ∈ ["major".data, "minor".data, "pentatonic".data]
    ∧ 70 ≤ (params_from_text text).2.1 ∧ (params_from_text text).2.1 ≤ 190
    ∧ 36 ≤ (params_from_text text).2.2.1 ∧ (params_from_text text).2.2.1 ≤ 60
    ∧ (params_from_text text).2.2.2.1 ∈ ([1/8, 1/4, 3/8, 1/2] : List ℚ)
    ∧ (params_from_text text).2.2.2.2.1 ∈ [81, 100, 104, 84, 85, 86]
    ∧ 1 ≤ (params_from_text text).2.2.2.2.2 ∧ (params_from_text text).2.2.2.2.2 ≤ 5 := by
  have heq : params_from_text text =
      (["major".data, "minor".data, "pentatonic".data].getD
          ((sha256 (utf8Encode text)).getD 0 0 % 3) [],
       70 + ((sha256 (utf8Encode text)).getD 1 0 % 121),
       36 + (((sha256 (utf8Encode text)).getD 2 0 % 25 : ℕ) : ℤ),
       ([1/8, 1/4, 3/8, 1/2] : List ℚ).getD ((sha256 (utf8Encode text)).getD 3 0 % 4) 0,
       [81, 100, 104, 84, 85, 86].getD ((sha256 (utf8Encode text)).getD 4 0 % 6) 0,
       1 + (((sha256 (utf8Encode text)).getD 5 0 % 8 : ℕ) : ℚ) * (1/2)) := by
    rw [params_from_text]
    norm_num
  refine ⟨heq, ?_, ?_, ?_, ?_, ?_, ?_, ?_, ?_, ?_⟩ <;> rw [heq] <;> dsimp only
  · have hb : (sha256 (utf8Encode text)).getD 0 0 % 3 < 3 := Nat.mod_lt _ (by norm_num)
    generalize hg : (sha256 (utf8Encode text)).getD 0 0 % 3 = i at hb
    interval_cases i <;> decide
  · omega
  · have hb : (sha256 (utf8Encode text)).getD 1 0 % 121 < 121 := Nat.mod_lt _ (by norm_num)
    omega
  · omega
  · have hb : (sha256 (utf8Encode text)).getD 2 0 % 25 < 25 := Nat.mod_lt _ (by norm_num)
    have h2 : (((sha256 (utf8Encode text)).getD 2 0 % 25 : ℕ) : ℤ) ≤ 24 := by
      exact_mod_cast Nat.le_of_lt_succ hb
    omega
  · have hb : (sha256 (utf8Encode text)).getD 3 0 % 4 < 4 := Nat.mod_lt _ (by norm_num)
    generalize hg : (sha256 (utf8Encode text)).getD 3 0 % 4 = i at hb
    interval_cases i <;> norm_num [List.getD]
  · have hb : (sha256 (utf8Encode text)).getD 4 0 % 6 < 6 := Nat.mod_lt _ (by norm_num)
    generalize hg : (sha256 (utf8Encode text)).getD 4 0 % 6 = i at hb
    interval_cases i <;> decide
  · have h0 : (0 : ℚ) ≤ (((sha256 (utf8Encode text)).getD 5 0 % 8 : ℕ) : ℚ) := by positivity
    nlinarith
  · have hb : (sha256 (utf8Encode text)).getD 5 0 % 8 < 8 := Nat.mod_lt _ (by norm_num)
    have h7 : (((sha256 (utf8Encode text)).getD 5 0 % 8 : ℕ) : ℚ) ≤ 7 := by
      exact_mod_cast Nat.le_of_lt_succ hb
    nlinarith

/-! ### Lemmas about `sortedDedup` and the chord emitter -/

lemma insertNoDup_ne_nil (x : ℤ) (l : List ℤ) : insertNoDup x l ≠ [] := by
  cases l with
  | nil => simp [insertNoDup]
  | cons y rest =>
    rw [insertNoDup]
    split_ifs <;> simp

lemma mem_insertNoDup (x : ℤ) (l : List ℤ) (a : ℤ) :
    a ∈ insertNoDup x l ↔ a = x ∨ a ∈ l := by
  induction l with
  | nil => simp [insertNoDup]
  | cons y rest ih =>
    rw [insertNoDup]
    split_ifs with h1 h2
    · subst h1
      simp [List.mem_cons]
    · simp [List.mem_cons]
    · simp only [List.mem_cons, ih]
      tauto

lemma sorted_insertNoDup (x : ℤ) (l : List ℤ) (h : List.Sorted (· < ·) l) :
    List.Sorted (· < ·) (insertNoDup x l) := by
  induction l with
  | nil => simp [insertNoDup]
  | cons y rest ih =>
    rw [List.sorted_cons] at h
    rw [insertNoDup]
    split_ifs with h1 h2
    · exact List.sorted_cons.mpr h
    · refine List.sorted_cons.mpr ⟨?_, List.sorted_cons.mpr h⟩
      intro b hb
      rcases List.mem_cons.mp hb with rfl | hb
      · exact h2
      · exact lt_trans h2 (h.1 b hb)
    · refine List.sorted_cons.mpr ⟨?_, ih h.2⟩
      intro b hb
      rcases (mem_insertNoDup x rest b).mp hb with rfl | hb
      · omega
      · exact h.1 b hb

lemma sorted_sortedDedup (l : List ℤ) : List.Sorted (· < ·) (sortedDedup l) := by
  induction l with
  | nil => simp [sortedDedup]
  | cons x rest ih => exact sorted_insertNoDup x _ ih

lemma mem_sortedDedup (l : List ℤ) (a : ℤ) : a ∈ sortedDedup l ↔ a ∈ l := by
  induction l with
  | nil => simp [sortedDedup]
  | cons x rest ih =>
    simp only [sortedDedup, List.foldr_cons] at ih ⊢
    rw [mem_insertNoDup, ih, List.mem_cons]

lemma sortedDedup_ne_nil (l : List ℤ) (h : l ≠ []) : sortedDedup l ≠ [] := by
  cases l with
  | nil => exact absurd rfl h
  | cons x rest => exact insertNoDup_ne_nil x _

/-- The successful chord track, in closed form, when the deduplicated pitch
list is non-empty. -/
lemma chord_file_eq (notes : List Note) (bpm program channel tpb : ℕ) (cd : ℚ)
    (p : ℤ) (rest : List ℤ) (hp : sortedDedup (notes.map Note.pitch) = p :: rest) :
    notes_to_midi_chord_file notes bpm program channel tpb cd =
      .ok (⟨.setTempo bpm, 0⟩ :: ⟨.programChange program channel, 0⟩ ::
        (((p :: rest).map fun q => (⟨.noteOn q (chordVel notes) channel, 0⟩ : TrackMsg)) ++
         (⟨.noteOff p 0 channel, pyInt (cd * (tpb : ℚ))⟩ ::
           rest.map fun q => (⟨.noteOff q 0 channel, 0⟩ : TrackMsg)))) := by
  rw [notes_to_midi_chord_file]
  dsimp only
  rw [hp, if_neg (by simp)]

lemma onEvents_chord (notes : List Note) (bpm program channel tpb : ℕ) (cd : ℚ)
    (p : ℤ) (rest : List ℤ) (vel : ℤ) :
    onEvents (⟨.setTempo bpm, 0⟩ :: ⟨.programChange program channel, 0⟩ ::
        (((p :: rest).map fun q => (⟨.noteOn q vel channel, 0⟩ : TrackMsg)) ++
         (⟨.noteOff p 0 channel, pyInt (cd * (tpb : ℚ))⟩ ::
           rest.map fun q => (⟨.noteOff q 0 channel, 0⟩ : TrackMsg)))) =
      (p :: rest).map fun q => (q, vel) := by
  rw [onEvents]
  rw [List.filterMap_cons_none rfl, List.filterMap_cons_none rfl, List.filterMap_append]
  rw [List.filterMap_cons_none rfl]
  have h1 : ∀ (l : List ℤ),
      (l.map fun q => (⟨.noteOn q vel channel, 0⟩ : TrackMsg)).filterMap
        (fun m => match m.msg with | .noteOn p v _ => some (p, v) | _ => none) =
      l.map fun q => (q, vel) := by
    intro l
    induction l with
    | nil => rfl
    | cons a l ih =>
      rw [List.map_cons, List.filterMap_cons]
      dsimp only
      rw [ih, List.map_cons]
  have h2 : ∀ (l : List ℤ),
      (l.map fun q => (⟨.noteOff q 0 channel, 0⟩ : TrackMsg)).filterMap
        (fun m => match m.msg with | .noteOn p v _ => some (p, v) | _ => none) = [] := by
    intro l
    induction l with
    | nil => rfl
    | cons a l ih =>
      rw [List.map_cons, List.filterMap_cons]
      dsimp only
      exact ih
  rw [h1, h2, List.append_nil]

/-- C1 (amended): the chord emitter's note-on events carry exactly the
distinct pitches of the input Notes, strictly ascending, each exactly once,
all with the same velocity `chordVel notes` = clamp(int(mean of the input
velocities)) (the mean truncated toward zero, not rounded). -/
theorem chord_emission_pitches (notes : List Note) (bpm program channel tpb : ℕ) (cd : ℚ)
    (h : notes ≠ []) :
    ∃ track, notes_to_midi_chord_file notes bpm program channel tpb cd = .ok track
      ∧ ((onEvents track).map Prod.fst).toFinset = (notes.map Note.pitch).toFinset
      ∧ List.Sorted (· < ·) ((onEvents track).map Prod.fst)
      ∧ ((onEvents track).map Prod.fst).Nodup
      ∧ ∀ pv ∈ onEvents track, pv.2 = chordVel notes := by
  obtain ⟨p, rest, hp⟩ : ∃ p rest, sortedDedup (notes.map Note.pitch) = p :: rest := by
    rcases hsd : sortedDedup (notes.map Note.pitch) with _ | ⟨p, rest⟩
    · exact absurd hsd (sortedDedup_ne_nil _ (by simp [h]))
    · exact ⟨p, rest, rfl⟩
  refine ⟨_, chord_file_eq notes bpm program channel tpb cd p rest hp, ?_⟩
  rw [onEvents_chord notes bpm program channel tpb cd p rest (chordVel notes)]
  have hfst : ((p :: rest).map fun q => (q, chordVel notes)).map Prod.fst = p :: rest := by
    rw [List.map_map]
    have hcomp : (Prod.fst ∘ fun q : ℤ => (q, chordVel notes)) = id := rfl
    rw [hcomp, List.map_id]
  rw [hfst, ← hp]
  refine ⟨?_, sorted_sortedDedup _, ?_, ?_⟩
  · ext a
    simp [List.mem_toFinset, mem_sortedDedup]
  · exact (sorted_sortedDedup _).nodup
  · intro pv hpv
    rcases List.mem_map.mp hpv with ⟨q, hq, rfl⟩
    rfl

/-- Witness for `chord_emission_pitches` on three concrete Notes. -/
theorem chord_emission_pitches_witness :
    ([{ pitch := 60, duration_beats := 1, velocity := 55 },
      { pitch := 61, duration_beats := 1, velocity := 95 },
      { pitch := 62, duration_beats := 1, velocity := 95 }] : List Note) ≠ []
    ∧ ∃ track,
        notes_to_midi_chord_file
          [{ pitch := 60, duration_beats := 1, velocity := 55 },
           { pitch := 61, duration_beats := 1, velocity := 95 },
           { pitch := 62, duration_beats := 1, velocity := 95 }] 120 0 0 480 3 = .ok track
        ∧ ((onEvents track).map Prod.fst).toFinset =
            (([{ pitch := 60, duration_beats := 1, velocity := 55 },
               { pitch := 61, duration_beats := 1, velocity := 95 },
               { pitch := 62, duration_beats := 1, velocity := 95 }] : List Note).map
              Note.pitch).toFinset
        ∧ List.Sorted (· < ·) ((onEvents track).map Prod.fst)
        ∧ ((onEvents track).map Prod.fst).Nodup
        ∧ ∀ pv ∈ onEvents track, pv.2 = chordVel
            [{ pitch := 60, duration_beats := 1, velocity := 55 },
             { pitch := 61, duration_beats := 1, velocity := 95 },
             { pitch := 62, duration_beats := 1, velocity := 95 }] :=
  ⟨by simp,
   chord_emission_pitches
     [{ pitch := 60, duration_beats := 1, velocity := 55 },
      { pitch := 61, duration_beats := 1, velocity := 95 },
      { pitch := 62, duration_beats := 1, velocity := 95 }] 120 0 0 480 3 (by simp)⟩

/-- C1 counterexample: on three Notes with velocities 55, 95, 95 the mean is
(55+95+95)/3 = 245/3 ≈ 81.67; the emitter truncates it to 81, while
round(mean) clamped to [1,127] is 82, so the claimed velocity formula does
not match the code. -/
theorem chord_round_velocity_cex :
    ¬ (∀ track,
        notes_to_midi_chord_file
          [{ pitch := 60, duration_beats := 1, velocity := 55 },
           { pitch := 61, duration_beats := 1, velocity := 95 },
           { pitch := 62, duration_beats := 1, velocity := 95 }] 120 0 0 480 3 = .ok track →
        ∀ pv ∈ onEvents track,
          pv.2 = max 1 (min 127 (round ((55 + 95 + 95 : ℚ) / 3)))) := by
  intro hcl
  have hok : notes_to_midi_chord_file
      [{ pitch := 60, duration_beats := 1, velocity := 55 },
       { pitch := 61, duration_beats := 1, velocity := 95 },
       { pitch := 62, duration_beats := 1, velocity := 95 }] 120 0 0 480 3 =
      .ok [⟨.setTempo 120, 0⟩, ⟨.programChange 0 0, 0⟩,
           ⟨.noteOn 60 81 0, 0⟩, ⟨.noteOn 61 81 0, 0⟩, ⟨.noteOn 62 81 0, 0⟩,
           ⟨.noteOff 60 0 0, 1440⟩, ⟨.noteOff 61 0 0, 0⟩, ⟨.noteOff 62 0 0, 0⟩] := by
    with_unfolding_all rfl
  have hmem : ((60 : ℤ), (81 : ℤ)) ∈ onEvents
      [⟨.setTempo 120, 0⟩, ⟨.programChange 0 0, 0⟩,
       ⟨.noteOn 60 81 0, 0⟩, ⟨.noteOn 61 81 0, 0⟩, ⟨.noteOn 62 81 0, 0⟩,
       ⟨.noteOff 60 0 0, 1440⟩, ⟨.noteOff 61 0 0, 0⟩, ⟨.noteOff 62 0 0, 0⟩] := by
    have : onEvents
        [⟨.setTempo 120, 0⟩, ⟨.programChange 0 0, 0⟩,
         ⟨.noteOn 60 81 0, 0⟩, ⟨.noteOn 61 81 0, 0⟩, ⟨.noteOn 62 81 0, 0⟩,
         ⟨.noteOff 60 0 0, 1440⟩, ⟨.noteOff 61 0 0, 0⟩, ⟨.noteOff 62 0 0, 0⟩] =
        [(60, 81), (61, 81), (62, 81)] := by with_unfolding_all rfl
    rw [this]
    simp
  have h1 := hcl _ hok _ hmem
  norm_num [round_eq] at h1

/-! ### Empty input (C7) -/

/-- C7: with the global bound, an input whose normalized form is empty makes
the pipeline fail with the empty-input ValueError (the model's `EmptyInput`)
before any emission, and the chord emitter itself rejects an empty Note
list with its no-notes ValueError instead of emitting a silent track. -/
theorem empty_input_error :
    (∀ (g text : List Char) (bpm : ℕ) (scaleArg : List Char) (baseArg : ℤ)
        (unitArg : ℚ) (progArg : ℕ),
      normalizeText text = [] →
      barcode_ascii_to_midi (some g) text bpm scaleArg baseArg unitArg progArg =
        .error (.valueError "Input barcode_ascii is empty after stripping newlines."))
    ∧ (∀ (bpm program channel tpb : ℕ) (cd : ℚ),
      notes_to_midi_chord_file [] bpm program channel tpb cd =
        .error (.valueError "No notes to write")) := by
  constructor
  · intro g text bpm scaleArg baseArg unitArg progArg hempty
    rcases hp : params_from_text g with ⟨s, b, bn, ub, p, cd⟩
    rw [barcode_ascii_to_midi]
    dsimp only
    rw [hp]
    dsimp only
    have hnotes : ascii_to_notes text bn s ub 1 12 = .ok [] := by
      rw [ascii_to_notes, if_pos hempty]
    rw [hnotes]
    simp
  · intro bpm program channel tpb cd
    rw [notes_to_midi_chord_file]
    simp [sortedDedup]

/-- Witness for `empty_input_error` with global "B" and the empty text. -/
theorem empty_input_error_witness :
    normalizeText [] = []
    ∧ barcode_ascii_to_midi (some "B".data) [] 130 "pentatonic".data 50 (1/4) 81 =
        .error (.valueError "Input barcode_ascii is empty after stripping newlines.") :=
  ⟨rfl, empty_input_error.1 "B".data [] 130 "pentatonic".data 50 (1/4) 81 rfl⟩

/-! ### Sequential emission (C6) -/

lemma dticks_nonneg (tpb : ℕ) (n : Note) (h : 0 ≤ n.duration_beats) : 0 ≤ dticks tpb n := by
  rw [dticks, pyInt]
  have hq : (0 : ℚ) ≤ n.duration_beats * (tpb : ℚ) := by positivity
  have hnum : 0 ≤ (n.duration_beats * (tpb : ℚ)).num := Rat.num_nonneg.mpr hq
  exact Int.tdiv_nonneg hnum (by positivity)

lemma seq_offTimes_getD (channel tpb : ℕ) : ∀ (notes : List Note) (t : ℤ) (k : ℕ),
    k < notes.length →
    ((withAbsTimes (seqNoteMsgs channel tpb notes) t).filterMap offSel).getD k 0 =
      t + ((notes.take (k + 1)).map (dticks tpb)).sum := by
  intro notes
  induction notes with
  | nil => intro t k hk; simp at hk
  | cons n rest ih =>
    intro t k hk
    rw [seqNoteMsgs, List.flatMap_cons]
    rw [show ([⟨.noteOn n.pitch n.velocity channel, 0⟩,
         ⟨.noteOff n.pitch 0 channel, pyInt (n.duration_beats * (tpb : ℚ))⟩] : List TrackMsg) ++
         rest.flatMap (fun n =>
           [⟨.noteOn n.pitch n.velocity channel, 0⟩,
            ⟨.noteOff n.pitch 0 channel, pyInt (n.duration_beats * (tpb : ℚ))⟩]) =
       ⟨.noteOn n.pitch n.velocity channel, 0⟩ ::
         ⟨.noteOff n.pitch 0 channel, pyInt (n.duration_beats * (tpb : ℚ))⟩ ::
           seqNoteMsgs channel tpb rest from rfl]
    rw [withAbsTimes, withAbsTimes]
    simp only [List.filterMap_cons]
    dsimp only [offSel]
    cases k with
    | zero =>
      rw [List.getD_cons_zero]
      simp [dticks]
    | succ k =>
      rw [List.getD_cons_succ]
      rw [ih _ k (by simpa using hk)]
      rw [List.take_succ_cons, List.map_cons, List.sum_cons, dticks]
      ring

lemma seq_onTimes_getD (channel tpb : ℕ) : ∀ (notes : List Note) (t : ℤ) (k : ℕ),
    k < notes.length →
    ((withAbsTimes (seqNoteMsgs channel tpb notes) t).filterMap onSel).getD k 0 =
      t + ((notes.take k).map (dticks tpb)).sum := by
  intro notes
  induction notes with
  | nil => intro t k hk; simp at hk
  | cons n rest ih =>
    intro t k hk
    rw [seqNoteMsgs, List.flatMap_cons]
    rw [show ([⟨.noteOn n.pitch n.velocity channel, 0⟩,
         ⟨.noteOff n.pitch 0 channel, pyInt (n.duration_beats * (tpb : ℚ))⟩] : List TrackMsg) ++
         rest.flatMap (fun n =>
           [⟨.noteOn n.pitch n.velocity channel, 0⟩,
            ⟨.noteOff n.pitch 0 channel, pyInt (n.duration_beats * (tpb : ℚ))⟩]) =
       ⟨.noteOn n.pitch n.velocity channel, 0⟩ ::
         ⟨.noteOff n.pitch 0 channel, pyInt (n.duration_beats * (tpb : ℚ))⟩ ::
           seqNoteMsgs channel tpb rest from rfl]
    rw [withAbsTimes, withAbsTimes]
    simp only [List.filterMap_cons]
    dsimp only [onSel, offSel]
    cases k with
    | zero =>
      rw [List.getD_cons_zero]
      simp
    | succ k =>
      rw [List.getD_cons_succ]
      rw [ih _ k (by simpa using hk)]
      rw [List.take_succ_cons, List.map_cons, List.sum_cons, dticks]
      ring

lemma offTimes_seq_track (notes : List Note) (bpm program channel tpb : ℕ) :
    offTimes (notes_to_midi_file notes bpm program channel tpb) =
      (withAbsTimes (seqNoteMsgs channel tpb notes) 0).filterMap offSel := by
  rw [notes_to_midi_file, offTimes, withAbsTimes, withAbsTimes]
  rw [List.filterMap_cons_none rfl, List.filterMap_cons_none rfl]
  norm_num

lemma onTimes_seq_track (notes : List Note) (bpm program channel tpb : ℕ) :
    onTimes (notes_to_midi_file notes bpm program channel tpb) =
      (withAbsTimes (seqNoteMsgs channel tpb notes) 0).filterMap onSel := by
  rw [notes_to_midi_file, onTimes, withAbsTimes, withAbsTimes]
  rw [List.filterMap_cons_none rfl, List.filterMap_cons_none rfl]
  norm_num

lemma sum_take_le (l : List ℤ) (h : ∀ x ∈ l, 0 ≤ x) {a b : ℕ} (hab : a ≤ b) :
    (l.take a).sum ≤ (l.take b).sum := by
  have hsplit : l.take b = l.take a ++ ((l.drop a).take (b - a)) := by
    rw [← List.take_add]
    congr 1
    omega
  rw [hsplit, List.sum_append]
  have h2 : 0 ≤ ((l.drop a).take (b - a)).sum := by
    apply List.sum_nonneg
    intro x hx
    exact h x (List.drop_subset a l (List.take_subset _ _ hx))
  omega

lemma seq_track_total (channel tpb : ℕ) : ∀ (notes : List Note),
    ((seqNoteMsgs channel tpb notes).map TrackMsg.time).sum =
      (notes.map (dticks tpb)).sum := by
  intro notes
  induction notes with
  | nil => rfl
  | cons n rest ih =>
    rw [seqNoteMsgs, List.flatMap_cons, List.map_append, List.sum_append]
    rw [show rest.flatMap (fun n =>
        [⟨.noteOn n.pitch n.velocity channel, 0⟩,
         (⟨.noteOff n.pitch 0 channel, pyInt (n.duration_beats * (tpb : ℚ))⟩ : TrackMsg)]) =
      seqNoteMsgs channel tpb rest from rfl]
    rw [ih, List.map_cons, List.sum_cons]
    simp [dticks]

/-- C6: in the sequential emission the k-th note-off's absolute tick time is
the cumulative sum of the tick durations of notes 1..k+1, the k-th
note-on's time is the cumulative sum of notes 1..k, note j's off never
comes after note k's on for j < k (so notes do not overlap), and the total
elapsed time is the sum of all tick durations. -/
theorem sequential_emission (notes : List Note) (bpm program channel tpb : ℕ)
    (hd : ∀ n ∈ notes, 0 ≤ n.duration_beats) :
    (∀ k, k < notes.length →
      (offTimes (notes_to_midi_file notes bpm program channel tpb)).getD k 0 =
        ((notes.take (k + 1)).map (dticks tpb)).sum)
    ∧ (∀ k, k < notes.length →
      (onTimes (notes_to_midi_file notes bpm program channel tpb)).getD k 0 =
        ((notes.take k).map (dticks tpb)).sum)
    ∧ (∀ j k, j < k → k < notes.length →
      (offTimes (notes_to_midi_file notes bpm program channel tpb)).getD j 0 ≤
        (onTimes (notes_to_midi_file notes bpm program channel tpb)).getD k 0)
    ∧ ((notes_to_midi_file notes bpm program channel tpb).map TrackMsg.time).sum =
        (notes.map (dticks tpb)).sum := by
  have hoff : ∀ k, k < notes.length →
      (offTimes (notes_to_midi_file notes bpm program channel tpb)).getD k 0 =
        ((notes.take (k + 1)).map (dticks tpb)).sum := by
    intro k hk
    rw [offTimes_seq_track, seq_offTimes_getD channel tpb notes 0 k hk]
    ring
  have hon : ∀ k, k < notes.length →
      (onTimes (notes_to_midi_file notes bpm program channel tpb)).getD k 0 =
        ((notes.take k).map (dticks tpb)).sum := by
    intro k hk
    rw [onTimes_seq_track, seq_onTimes_getD channel tpb notes 0 k hk]
    ring
  refine ⟨hoff, hon, ?_, ?_⟩
  · intro j k hjk hk
    rw [hoff j (lt_trans hjk hk), hon k hk]
    rw [List.map_take, List.map_take]
    apply sum_take_le
    · intro x hx
      rcases List.mem_map.mp hx with ⟨n, hn, rfl⟩
      exact dticks_nonneg tpb n (hd n hn)
    · omega
  · rw [notes_to_midi_file, List.map_cons, List.map_cons, List.sum_cons, List.sum_cons]
    rw [seq_track_total]
    ring

/-- Witness for `sequential_emission` on two concrete Notes. -/
theorem sequential_emission_witness :
    (∀ n ∈ [({ pitch := 60, duration_beats := 1, velocity := 80 } : Note),
            { pitch := 62, duration_beats := 2, velocity := 70 }], 0 ≤ n.duration_beats)
    ∧ (offTimes (notes_to_midi_file
          [{ pitch := 60, duration_beats := 1, velocity := 80 },
           { pitch := 62, duration_beats := 2, velocity := 70 }] 120 0 0 480)).getD 1 0 =
        ((([({ pitch := 60, duration_beats := 1, velocity := 80 } : Note),
            { pitch := 62, duration_beats := 2, velocity := 70 }]).take 2).map
          (dticks 480)).sum :=
  ⟨by intro n hn; fin_cases hn <;> norm_num,
   (sequential_emission
      [{ pitch := 60, duration_beats := 1, velocity := 80 },
       { pitch := 62, duration_beats := 2, velocity := 70 }] 120 0 0 480
      (by intro n hn; fin_cases hn <;> norm_num)).1 1 (by norm_num)⟩

/-! ### Chord-track event times (C2) and the global `ch` bug (C10) -/

lemma withAbsTimes_append (l1 l2 : List TrackMsg) : ∀ t,
    withAbsTimes (l1 ++ l2) t =
      withAbsTimes l1 t ++ withAbsTimes l2 (t + (l1.map TrackMsg.time).sum) := by
  induction l1 with
  | nil => intro t; simp [withAbsTimes]
  | cons m l1 ih =>
    intro t
    rw [List.cons_append, withAbsTimes, withAbsTimes, ih]
    rw [List.map_cons, List.sum_cons]
    have hacc : t + m.time + (l1.map TrackMsg.time).sum =
        t + (m.time + (l1.map TrackMsg.time).sum) := by ring
    rw [hacc, List.cons_append]

lemma withAbsTimes_map_zero (g : ℤ → MidiMsg) : ∀ (l : List ℤ) (t : ℤ),
    withAbsTimes (l.map fun q => (⟨g q, 0⟩ : TrackMsg)) t = l.map fun q => (g q, t) := by
  intro l
  induction l with
  | nil => intro t; rfl
  | cons a l ih =>
    intro t
    rw [List.map_cons, withAbsTimes, ih]
    norm_num

lemma filterMap_onSel_on (v : ℤ) (channel : ℕ) : ∀ (l : List ℤ) (t : ℤ),
    ((l.map fun q => ((MidiMsg.noteOn q v channel : MidiMsg), t)) :
      List (MidiMsg × ℤ)).filterMap onSel = l.map fun _ => t := by
  intro l
  induction l with
  | nil => intro t; rfl
  | cons a l ih =>
    intro t
    rw [List.map_cons, List.filterMap_cons]
    dsimp only [onSel]
    rw [ih, List.map_cons]

lemma filterMap_onSel_off (v : ℤ) (channel : ℕ) : ∀ (l : List ℤ) (t : ℤ),
    ((l.map fun q => ((MidiMsg.noteOff q v channel : MidiMsg), t)) :
      List (MidiMsg × ℤ)).filterMap onSel = [] := by
  intro l
  induction l with
  | nil => intro t; rfl
  | cons a l ih =>
    intro t
    rw [List.map_cons, List.filterMap_cons]
    dsimp only [onSel]
    exact ih t

lemma filterMap_offSel_on (v : ℤ) (channel : ℕ) : ∀ (l : List ℤ) (t : ℤ),
    ((l.map fun q => ((MidiMsg.noteOn q v channel : MidiMsg), t)) :
      List (MidiMsg × ℤ)).filterMap offSel = [] := by
  intro l
  induction l with
  | nil => intro t; rfl
  | cons a l ih =>
    intro t
    rw [List.map_cons, List.filterMap_cons]
    dsimp only [offSel]
    exact ih t

lemma filterMap_offSel_off (v : ℤ) (channel : ℕ) : ∀ (l : List ℤ) (t : ℤ),
    ((l.map fun q => ((MidiMsg.noteOff q v channel : MidiMsg), t)) :
      List (MidiMsg × ℤ)).filterMap offSel = l.map fun _ => t := by
  intro l
  induction l with
  | nil => intro t; rfl
  | cons a l ih =>
    intro t
    rw [List.map_cons, List.filterMap_cons]
    dsimp only [offSel]
    rw [ih, List.map_cons]

/-- Event times of a successful chord emission: every `note_on` is at
absolute time 0 and every `note_off` at `int(chord_duration_beats *
ticks_per_beat)`. -/
lemma chord_track_times (notes : List Note) (bpm program channel tpb : ℕ) (cd : ℚ)
    (track : List TrackMsg)
    (hok : notes_to_midi_chord_file notes bpm program channel tpb cd = .ok track) :
    onTimes track = (sortedDedup (notes.map Note.pitch)).map (fun _ => (0 : ℤ))
    ∧ offTimes track =
        (sortedDedup (notes.map Note.pitch)).map (fun _ => pyInt (cd * (tpb : ℚ))) := by
  rcases hsd : sortedDedup (notes.map Note.pitch) with _ | ⟨p, rest⟩
  · rw [notes_to_midi_chord_file] at hok
    dsimp only at hok
    rw [hsd, if_pos rfl] at hok
    exact absurd hok (by simp)
  · have heq := chord_file_eq notes bpm program channel tpb cd p rest hsd
    rw [heq] at hok
    simp only [Except.ok.injEq] at hok
    subst hok
    have habs : withAbsTimes
        (⟨.setTempo bpm, 0⟩ :: ⟨.programChange program channel, 0⟩ ::
          (((p :: rest).map fun q => (⟨.noteOn q (chordVel notes) channel, 0⟩ : TrackMsg)) ++
           (⟨.noteOff p 0 channel, pyInt (cd * (tpb : ℚ))⟩ ::
             rest.map fun q => (⟨.noteOff q 0 channel, 0⟩ : TrackMsg)))) 0 =
        ((MidiMsg.setTempo bpm, (0 : ℤ)) :: (MidiMsg.programChange program channel, (0 : ℤ)) ::
          (((p :: rest).map fun q => ((MidiMsg.noteOn q (chordVel notes) channel : MidiMsg), (0 : ℤ))) ++
           ((MidiMsg.noteOff p 0 channel, pyInt (cd * (tpb : ℚ))) ::
             rest.map fun q => ((MidiMsg.noteOff q 0 channel : MidiMsg), pyInt (cd * (tpb : ℚ)))))) := by
      rw [withAbsTimes, withAbsTimes, withAbsTimes_append, withAbsTimes_map_zero]
      rw [show ((0 : ℤ) + (⟨MidiMsg.setTempo bpm, 0⟩ : TrackMsg).time) = 0 from by norm_num]
      rw [show ((0 : ℤ) + (⟨MidiMsg.programChange program channel, 0⟩ : TrackMsg).time) = 0
        from by norm_num]
      have hsum : (((p :: rest).map fun q =>
          (⟨.noteOn q (chordVel notes) channel, 0⟩ : TrackMsg)).map TrackMsg.time).sum = 0 := by
        rw [List.map_map]
        have hc : (TrackMsg.time ∘ fun q : ℤ =>
            (⟨.noteOn q (chordVel notes) channel, 0⟩ : TrackMsg)) = fun _ => (0 : ℤ) := rfl
        rw [hc]
        simp
      rw [hsum]
      rw [withAbsTimes, withAbsTimes_map_zero]
      norm_num
    constructor
    · rw [onTimes, habs]
      rw [List.filterMap_cons, List.filterMap_cons]
      dsimp only [onSel]
      rw [List.filterMap_append, filterMap_onSel_on]
      rw [List.filterMap_cons]
      dsimp only [onSel]
      rw [filterMap_onSel_off]
      simp
    · rw [offTimes, habs]
      rw [List.filterMap_cons, List.filterMap_cons]
      dsimp only [offSel]
      rw [List.filterMap_append, filterMap_offSel_on]
      rw [List.filterMap_cons]
      dsimp only [offSel]
      rw [filterMap_offSel_off]
      simp

/-- C2 (amended): the pipeline always passes the literal 3.0 beats (1440
ticks at the fixed 480 ticks-per-beat) to the chord emitter, so every
successful run has its note-ons at time 0 and its note-offs 1440 ticks
later, regardless of the hash-derived chord_duration_beats. -/
theorem chord_pipeline_fixed_duration (g text : List Char) (bpm : ℕ) (scaleArg : List Char)
    (baseArg : ℤ) (unitArg : ℚ) (progArg : ℕ) (track : List TrackMsg)
    (hok : barcode_ascii_to_midi (some g) text bpm scaleArg baseArg unitArg progArg =
      .ok track) :
    pyInt ((3 : ℚ) * (480 : ℚ)) = 1440
    ∧ (∀ t ∈ onTimes track, t = 0)
    ∧ (∀ t ∈ offTimes track, t = pyInt ((3 : ℚ) * (480 : ℚ))) := by
  rcases hp : params_from_text g with ⟨s, b, bn, ub, p, cd⟩
  rw [barcode_ascii_to_midi] at hok
  dsimp only at hok
  rw [hp] at hok
  dsimp only at hok
  rcases han : ascii_to_notes text bn s ub 1 12 with e | notes
  · rw [han] at hok; exact absurd hok (by simp)
  · rw [han] at hok
    dsimp only at hok
    by_cases hne : notes = []
    · rw [if_pos hne] at hok; exact absurd hok (by simp)
    · rw [if_neg hne] at hok
      have h30 : (3.0 : ℚ) = 3 := by norm_num
      rw [h30] at hok
      have htimes := chord_track_times notes b p 0 480 3 track hok
      refine ⟨by with_unfolding_all rfl, ?_, ?_⟩
      · intro t ht
        rw [htimes.1] at ht
        rcases List.mem_map.mp ht with ⟨q, hq, rfl⟩
        rfl
      · intro t ht
        rw [htimes.2] at ht
        rcases List.mem_map.mp ht with ⟨q, hq, rfl⟩
        norm_num

/-- Witness for `chord_pipeline_fixed_duration` at the text "B". -/
theorem chord_pipeline_fixed_duration_witness :
    barcode_ascii_to_midi (some "B".data) "B".data 130 "pentatonic".data 50 (1/4) 81 =
      .ok [⟨.setTempo 75, 0⟩, ⟨.programChange 104 0, 0⟩,
           ⟨.noteOn 55 55 0, 0⟩, ⟨.noteOff 55 0 0, 1440⟩]
    ∧ (pyInt ((3 : ℚ) * (480 : ℚ)) = 1440
      ∧ (∀ t ∈ onTimes [⟨.setTempo 75, 0⟩, ⟨.programChange 104 0, 0⟩,
           (⟨.noteOn 55 55 0, 0⟩ : TrackMsg), ⟨.noteOff 55 0 0, 1440⟩], t = 0)
      ∧ (∀ t ∈ offTimes [⟨.setTempo 75, 0⟩, ⟨.programChange 104 0, 0⟩,
           (⟨.noteOn 55 55 0, 0⟩ : TrackMsg), ⟨.noteOff 55 0 0, 1440⟩],
          t = pyInt ((3 : ℚ) * (480 : ℚ)))) :=
  ⟨by with_unfolding_all rfl,
   chord_pipeline_fixed_duration "B".data "B".data 130 "pentatonic".data 50 (1/4) 81
     [⟨.setTempo 75, 0⟩, ⟨.programChange 104 0, 0⟩,
      ⟨.noteOn 55 55 0, 0⟩, ⟨.noteOff 55 0 0, 1440⟩] (by with_unfolding_all rfl)⟩

/-- C2 counterexample: for the text "B" the hash-derived chord duration is
3.5 beats = 1680 ticks, but the emitted note-off happens 1440 ticks (the
hardcoded 3.0 beats) after the note-ons, so the pipeline does not pass the
derived duration to the emitter. -/
theorem chord_pipeline_derived_duration_cex :
    ¬ (∀ track,
        barcode_ascii_to_midi (some "B".data) "B".data 130 "pentatonic".data 50 (1/4) 81 =
          .ok track →
        ∀ t ∈ offTimes track,
          t = pyInt ((params_from_text "B".data).2.2.2.2.2 * (480 : ℚ))) := by
  intro hcl
  have hok : barcode_ascii_to_midi (some "B".data) "B".data 130 "pentatonic".data 50 (1/4) 81 =
      .ok [⟨.setTempo 75, 0⟩, ⟨.programChange 104 0, 0⟩,
           ⟨.noteOn 55 55 0, 0⟩, ⟨.noteOff 55 0 0, 1440⟩] := by
    with_unfolding_all rfl
  have hofft : offTimes [(⟨.setTempo 75, 0⟩ : TrackMsg), ⟨.programChange 104 0, 0⟩,
      ⟨.noteOn 55 55 0, 0⟩, ⟨.noteOff 55 0 0, 1440⟩] = [1440] := by
    with_unfolding_all rfl
  have h1 := hcl _ hok 1440 (by rw [hofft]; simp)
  have h2 : pyInt ((params_from_text "B".data).2.2.2.2.2 * (480 : ℚ)) = 1680 := by
    with_unfolding_all rfl
  rw [h2] at h1
  exact absurd h1 (by norm_num)

/-- C10: `barcode_ascii_to_midi` reads the module-global `ch`: with no
global bound it fails with a `NameError`; all five caller-supplied musical
parameters are ignored (any two argument tuples give identical results);
and whenever the global differs from the `barcode_ascii` argument, every
successful run is exactly the chord emission of the notes mapped with the
scale, base pitch and unit-beats of `params_from_text ch`, emitted at the
bpm and instrument of `params_from_text ch` (and the hardcoded 3.0-beat
chord duration). -/
theorem global_ch_shadowing :
    (∀ (text : List Char) (bpm : ℕ) (scaleArg : List Char) (baseArg : ℤ)
        (unitArg : ℚ) (progArg : ℕ),
      barcode_ascii_to_midi none text bpm scaleArg baseArg unitArg progArg =
        .error (.nameError "ch"))
    ∧ (∀ (g text : List Char) (bpm1 bpm2 : ℕ) (s1 s2 : List Char) (b1 b2 : ℤ)
        (u1 u2 : ℚ) (p1 p2 : ℕ),
      barcode_ascii_to_midi (some g) text bpm1 s1 b1 u1 p1 =
        barcode_ascii_to_midi (some g) text bpm2 s2 b2 u2 p2)
    ∧ (∀ (g text : List Char) (bpm : ℕ) (scaleArg : List Char) (baseArg : ℤ)
        (unitArg : ℚ) (progArg : ℕ) (track : List TrackMsg), g ≠ text →
      barcode_ascii_to_midi (some g) text bpm scaleArg baseArg unitArg progArg = .ok track →
      ∃ notes, ascii_to_notes text (params_from_text g).2.2.1 (params_from_text g).1
          (params_from_text g).2.2.2.1 1 12 = .ok notes
        ∧ notes ≠ []
        ∧ notes_to_midi_chord_file notes (params_from_text g).2.1
            (params_from_text g).2.2.2.2.1 0 480 3.0 = .ok track) := by
  refine ⟨fun _ _ _ _ _ _ => rfl, fun _ _ _ _ _ _ _ _ _ _ _ _ => rfl, ?_⟩
  intro g text bpm scaleArg baseArg unitArg progArg track hneq hok
  rcases hp : params_from_text g with ⟨s, b, bn, ub, p, cd⟩
  rw [barcode_ascii_to_midi] at hok
  dsimp only at hok
  rw [hp] at hok
  dsimp only at hok
  dsimp only
  rcases han : ascii_to_notes text bn s ub 1 12 with e | notes
  · rw [han] at hok; exact absurd hok (by simp)
  · rw [han] at hok
    dsimp only at hok
    by_cases hne : notes = []
    · rw [if_pos hne] at hok; exact absurd hok (by simp)
    · rw [if_neg hne] at hok
      exact ⟨notes, rfl, hne, hok⟩

/-- Witness for `global_ch_shadowing`: global "B", argument text "A"; the
emitted tempo 75 and program 104 are those derived from "B", not the
caller's 130 and 81. -/
theorem global_ch_shadowing_witness :
    "B".data ≠ "A".data
    ∧ barcode_ascii_to_midi (some "B".data) "A".data 130 "pentatonic".data 50 (1/4) 81 =
        .ok [⟨.setTempo 75, 0⟩, ⟨.programChange 104 0, 0⟩,
             ⟨.noteOn 53 55 0, 0⟩, ⟨.noteOff 53 0 0, 1440⟩]
    ∧ ∃ notes, ascii_to_notes "A".data (params_from_text "B".data).2.2.1
          (params_from_text "B".data).1 (params_from_text "B".data).2.2.2.1 1 12 = .ok notes
        ∧ notes ≠ []
        ∧ notes_to_midi_chord_file notes (params_from_text "B".data).2.1
            (params_from_text "B".data).2.2.2.2.1 0 480 3.0 =
            .ok [⟨.setTempo 75, 0⟩, ⟨.programChange 104 0, 0⟩,
                 ⟨.noteOn 53 55 0, 0⟩, ⟨.noteOff 53 0 0, 1440⟩] :=
  ⟨by decide, by with_unfolding_all rfl,
   global_ch_shadowing.2.2 "B".data "A".data 130 "pentatonic".data 50 (1/4) 81
     [⟨.setTempo 75, 0⟩, ⟨.programChange 104 0, 0⟩,
      ⟨.noteOn 53 55 0, 0⟩, ⟨.noteOff 53 0 0, 1440⟩]
     (by decide) (by with_unfolding_all rfl)⟩

end BarcodeMidi
